import Mathlib

/-!
# Verification of the modern-mgo compatibility shim

A shallow embedding of the document-model translation layer of the
`modern-mgo` repository: the bidirectional value converters
(`convertMGOToOfficial` / `convertOfficialToMGO`), the auto-`$set` update
wrapping rule, the cursor iterator, the find-and-modify façade, the bulk
operation builder, the session copy/close logic and the GridFS write path.

Go values flowing through the converters are modelled by the inductive
type `BVal` below, a closed universe covering the runtime types the
converters' type switches distinguish:
* legacy (globalsign mgo) shapes: `bson.M` (`mgoM`), `bson.D` (`mgoD`),
  `bson.ObjectId` (`mgoOid`, a byte string of arbitrary length),
  `time.Time` (`mgoTime`, an instant in nanoseconds since the Unix epoch);
* plain Go shapes: `[]interface{}` (`arr`), `map[string]interface{}`
  (`goMap`), `nil` (`vnull`), and scalar values;
* modern (official driver) shapes: `primitive.M` (`offM`),
  `primitive.D` (`offD`), `primitive.A` (`offA`, a *defined* Go type
  distinct from `[]interface{}`, hence matched by its own type-switch
  case or by none), `primitive.ObjectID` (`offOid`) and
  `primitive.DateTime` (`offDateTime`, milliseconds since the epoch).

Go type switches match the dynamic type exactly, so e.g. a `primitive.A`
value does not match a `case []interface{}` arm; the embedding mirrors
this by giving each Go type its own constructor.  Go maps are modelled
as association lists (`Fields`); this preserves key/value contents,
which is all the converters inspect.
-/

namespace ModernMgo

mutual

/-- A Go runtime value from the closed universe of types the converters
distinguish. -/
inductive BVal : Type where
  | vnull : BVal
  | vint : Int → BVal
  | vstr : String → BVal
  | vbool : Bool → BVal
  | mgoM : Fields → BVal
  | mgoD : Fields → BVal
  | goMap : Fields → BVal
  | arr : Elems → BVal
  | mgoOid : List Nat → BVal
  | mgoTime : Int → BVal
  | offM : Fields → BVal
  | offD : Fields → BVal
  | offA : Elems → BVal
  | offOid : List Nat → BVal
  | offDateTime : Int → BVal
  deriving DecidableEq

/-- A list of array elements (`[]interface{}` contents). -/
inductive Elems : Type where
  | nil : Elems
  | cons : BVal → Elems → Elems
  deriving DecidableEq

/-- String-keyed fields of a document (map or ordered pair list). -/
inductive Fields : Type where
  | nil : Fields
  | cons : String → BVal → Fields → Fields
  deriving DecidableEq

end

namespace Elems

/-- Number of elements. -/
def length : Elems → Nat
  | .nil => 0
  | .cons _ es => es.length + 1

/-- View as an ordinary list. -/
def toList : Elems → List BVal
  | .nil => []
  | .cons v es => v :: es.toList

end Elems

namespace Fields

/-- Number of fields. -/
def length : Fields → Nat
  | .nil => 0
  | .cons _ _ fs => fs.length + 1

/-- Whether some key of the document satisfies `p`. -/
def anyKey (p : String → Bool) : Fields → Bool
  | .nil => false
  | .cons k _ fs => p k || fs.anyKey p

/-- Look up the first field with the given key. -/
def lookup (key : String) : Fields → Option BVal
  | .nil => none
  | .cons k v fs => if k = key then some v else fs.lookup key

end Fields

/-- The outbound timestamp conversion `primitive.NewDateTimeFromTime`:
it computes `t.Unix()*1000 + t.Nanosecond()/1e6`, i.e. the floor of the
instant in milliseconds (nanoseconds divided by 10^6, rounding down). -/
def dateTimeFromTime (ns : Int) : Int :=
  Int.fdiv ns 1000000

/-- The inbound timestamp conversion `primitive.DateTime.Time()`:
`time.Unix(ms/1000, ms%1000*1e6)`, an instant of exactly `ms`
milliseconds (expressed in nanoseconds). -/
def timeFromDateTime (ms : Int) : Int :=
  ms * 1000000

mutual

/-- Go function `convertMGOToOfficial` (modern_utils.go): recursive legacy→modern value
conversion.  Each arm transcribes the corresponding `case` of the Go type
switch; constructors of `BVal` not matched by any case fall to the
`default` arm, which returns the input unchanged (none of them is a Go
struct or a slice of `bson.M`, so the reflection fallback also passes
them through). -/
def convertMGOToOfficial : BVal → BVal
  | .vnull => .vnull
  | .mgoM fs => .offM (convertMGOToOfficialF fs)
  | .mgoD fs => .offD (convertMGOToOfficialF fs)
  | .arr es => .arr (convertMGOToOfficialE es)
  | .goMap fs => .offM (convertMGOToOfficialF fs)
  | .mgoOid b => if b.length = 12 then .offOid b else .mgoOid b
  | .mgoTime ns => .offDateTime (dateTimeFromTime ns)
  | .vint n => .vint n
  | .vstr s => .vstr s
  | .vbool b => .vbool b
  | .offM fs => .offM fs
  | .offD fs => .offD fs
  | .offA es => .offA es
  | .offOid b => .offOid b
  | .offDateTime ms => .offDateTime ms

/-- Element-wise conversion of a `[]interface{}` value. -/
def convertMGOToOfficialE : Elems → Elems
  | .nil => .nil
  | .cons v es => .cons (convertMGOToOfficial v) (convertMGOToOfficialE es)

/-- Field-wise conversion of a document, keys copied verbatim, order kept. -/
def convertMGOToOfficialF : Fields → Fields
  | .nil => .nil
  | .cons k v fs => .cons k (convertMGOToOfficial v) (convertMGOToOfficialF fs)

end

mutual

/-- Go function `convertOfficialToMGO` (modern_utils.go): recursive modern→legacy value
conversion.  Note that the Go type switch has a `case []interface{}` arm
(`arr`) but no `case primitive.A` arm, so `offA` values fall to the
`default` arm and are returned unchanged. -/
def convertOfficialToMGO : BVal → BVal
  | .vnull => .vnull
  | .offM fs => .mgoM (convertOfficialToMGOF fs)
  | .offD fs => .mgoD (convertOfficialToMGOF fs)
  | .arr es => .arr (convertOfficialToMGOE es)
  | .goMap fs => .mgoM (convertOfficialToMGOF fs)
  | .offOid b => .mgoOid b
  | .offDateTime ms => .mgoTime (timeFromDateTime ms)
  | .vint n => .vint n
  | .vstr s => .vstr s
  | .vbool b => .vbool b
  | .mgoM fs => .mgoM fs
  | .mgoD fs => .mgoD fs
  | .offA es => .offA es
  | .mgoOid b => .mgoOid b
  | .mgoTime ns => .mgoTime ns

/-- Element-wise conversion of a `[]interface{}` value. -/
def convertOfficialToMGOE : Elems → Elems
  | .nil => .nil
  | .cons v es => .cons (convertOfficialToMGO v) (convertOfficialToMGOE es)

/-- Field-wise conversion of a document. -/
def convertOfficialToMGOF : Fields → Fields
  | .nil => .nil
  | .cons k v fs => .cons k (convertOfficialToMGO v) (convertOfficialToMGOF fs)

end

mutual

/-- A value built only from the legacy surface shapes named by the spec's
round-trip property: nested `bson.M`, `bson.D`, generic arrays, typed
identifiers, wall-clock timestamps, and scalars. -/
def isLegacy : BVal → Bool
  | .vnull => true
  | .vint _ => true
  | .vstr _ => true
  | .vbool _ => true
  | .mgoM fs => isLegacyF fs
  | .mgoD fs => isLegacyF fs
  | .arr es => isLegacyE es
  | .mgoOid _ => true
  | .mgoTime _ => true
  | .goMap _ => false
  | .offM _ => false
  | .offD _ => false
  | .offA _ => false
  | .offOid _ => false
  | .offDateTime _ => false

/-- All elements are legacy values. -/
def isLegacyE : Elems → Bool
  | .nil => true
  | .cons v es => isLegacy v && isLegacyE es

/-- All field values are legacy values. -/
def isLegacyF : Fields → Bool
  | .nil => true
  | .cons _ v fs => isLegacy v && isLegacyF fs

end

mutual

/-- Truncate every timestamp in a legacy value tree to millisecond
precision (flooring), leaving everything else unchanged. -/
def truncMs : BVal → BVal
  | .mgoTime ns => .mgoTime (Int.fdiv ns 1000000 * 1000000)
  | .mgoM fs => .mgoM (truncMsF fs)
  | .mgoD fs => .mgoD (truncMsF fs)
  | .arr es => .arr (truncMsE es)
  | .vnull => .vnull
  | .vint n => .vint n
  | .vstr s => .vstr s
  | .vbool b => .vbool b
  | .goMap fs => .goMap fs
  | .mgoOid b => .mgoOid b
  | .offM fs => .offM fs
  | .offD fs => .offD fs
  | .offA es => .offA es
  | .offOid b => .offOid b
  | .offDateTime ms => .offDateTime ms

/-- Element-wise millisecond truncation. -/
def truncMsE : Elems → Elems
  | .nil => .nil
  | .cons v es => .cons (truncMs v) (truncMsE es)

/-- Field-wise millisecond truncation. -/
def truncMsF : Fields → Fields
  | .nil => .nil
  | .cons k v fs => .cons k (truncMs v) (truncMsF fs)

end

mutual

/-- Round trip for values: legacy → modern → legacy is the identity up to
millisecond truncation of timestamps. -/
theorem roundTripVal : ∀ v : BVal, isLegacy v = true →
    convertOfficialToMGO (convertMGOToOfficial v) = truncMs v
  | .vnull, _ => rfl
  | .vint _, _ => rfl
  | .vstr _, _ => rfl
  | .vbool _, _ => rfl
  | .mgoM fs, h => by
      simp only [convertMGOToOfficial, convertOfficialToMGO, truncMs]
      exact congrArg BVal.mgoM (roundTripFields fs (by simpa [isLegacy] using h))
  | .mgoD fs, h => by
      simp only [convertMGOToOfficial, convertOfficialToMGO, truncMs]
      exact congrArg BVal.mgoD (roundTripFields fs (by simpa [isLegacy] using h))
  | .arr es, h => by
      simp only [convertMGOToOfficial, convertOfficialToMGO, truncMs]
      exact congrArg BVal.arr (roundTripElems es (by simpa [isLegacy] using h))
  | .mgoOid b, _ => by
      by_cases hb : b.length = 12 <;>
        simp [convertMGOToOfficial, convertOfficialToMGO, truncMs, hb]
  | .mgoTime ns, _ => rfl

/-- Round trip for array elements. -/
theorem roundTripElems : ∀ es : Elems, isLegacyE es = true →
    convertOfficialToMGOE (convertMGOToOfficialE es) = truncMsE es
  | .nil, _ => rfl
  | .cons v es, h => by
      simp only [isLegacyE, Bool.and_eq_true] at h
      simp only [convertMGOToOfficialE, convertOfficialToMGOE, truncMsE]
      exact congrArg₂ Elems.cons (roundTripVal v h.1) (roundTripElems es h.2)

/-- Round trip for document fields. -/
theorem roundTripFields : ∀ fs : Fields, isLegacyF fs = true →
    convertOfficialToMGOF (convertMGOToOfficialF fs) = truncMsF fs
  | .nil, _ => rfl
  | .cons k v fs, h => by
      simp only [isLegacyF, Bool.and_eq_true] at h
      simp only [convertMGOToOfficialF, convertOfficialToMGOF, truncMsF]
      rw [roundTripVal v h.1, roundTripFields fs h.2]

end

/-- A sample legacy document used to instantiate round-trip statements:
a map holding a timestamp, an array with a 12-byte identifier, and an
ordered sub-document. -/
def c1Sample : BVal :=
  .mgoM (.cons ("when") (.mgoTime 1234567891)
    (.cons ("ids") (.arr (.cons (.mgoOid [0, 1, 2, 3, 4, 5, 6, 7, 8, 9, 10, 11]) .nil))
      (.cons ("sub") (.mgoD (.cons ("k") (.vint 3) .nil)) .nil)))

/-- C1: for every document built from nested legacy unordered maps (`bson.M`),
ordered pair lists (`bson.D`), arrays, typed identifiers (`bson.ObjectId`) and
wall-clock timestamps (`time.Time`), converting legacy-to-modern with
`convertMGOToOfficial` and then modern-to-legacy with `convertOfficialToMGO`
yields the original document with every timestamp truncated to millisecond
precision. -/
theorem convert_roundtrip_truncates_timestamps (d : BVal) (h : isLegacy d = true) :
    convertOfficialToMGO (convertMGOToOfficial d) = truncMs d :=
  roundTripVal d h

/-- Witness for the round-trip theorem at a concrete nested document. -/
theorem convert_roundtrip_truncates_timestamps_witness :
    isLegacy c1Sample = true ∧
      convertOfficialToMGO (convertMGOToOfficial c1Sample) = truncMs c1Sample :=
  ⟨by decide, convert_roundtrip_truncates_timestamps c1Sample (by decide)⟩

/-- C5: a 12-byte legacy identifier survives the outbound-then-inbound
round trip with its bytes intact, and an identifier whose byte length is
not 12 is passed through unconverted by either direction. -/
theorem objectid_byte_preservation (b : List Nat) :
    (b.length = 12 →
      convertOfficialToMGO (convertMGOToOfficial (BVal.mgoOid b)) = BVal.mgoOid b) ∧
    (b.length ≠ 12 →
      convertMGOToOfficial (BVal.mgoOid b) = BVal.mgoOid b ∧
        convertOfficialToMGO (BVal.mgoOid b) = BVal.mgoOid b) := by
  refine ⟨fun h => ?_, fun h => ⟨?_, ?_⟩⟩ <;>
    simp [convertMGOToOfficial, convertOfficialToMGO, h]

/-- Witness for identifier byte preservation at a 12-byte and a 3-byte value. -/
theorem objectid_byte_preservation_witness :
    convertOfficialToMGO (convertMGOToOfficial
        (BVal.mgoOid [0, 1, 2, 3, 4, 5, 6, 7, 8, 9, 10, 11])) =
      BVal.mgoOid [0, 1, 2, 3, 4, 5, 6, 7, 8, 9, 10, 11] ∧
    convertMGOToOfficial (BVal.mgoOid [7, 7, 7]) = BVal.mgoOid [7, 7, 7] :=
  ⟨(objectid_byte_preservation _).1 (by decide),
   ((objectid_byte_preservation [7, 7, 7]).2 (by decide)).1⟩

/-! ## Auto-`$set` wrapping (update helpers, modern_types.go helpers) -/

/-- The `$` key test used by `hasUpdateOperators`: Go
`strings.HasPrefix(k, "$")`, i.e. the key's first character is `$`. -/
def isDollarKey (k : String) : Bool :=
  match k.data with
  | [] => false
  | c :: _ => c = '$'

/-- Go function `hasUpdateOperators`: true if the document already contains a
top-level update operator key.  The Go type switch inspects only `bson.M`
and `map[string]interface{}`; every other shape (including `bson.D` and
`nil`) falls through and yields false. -/
def hasUpdateOperators : BVal → Bool
  | .mgoM fs => fs.anyKey isDollarKey
  | .goMap fs => fs.anyKey isDollarKey
  | _ => false

/-- Go function `wrapInSetOperator`: wrap a plain replacement document in a
`$set` update unless it already contains a top-level update operator. -/
def wrapInSetOperator (doc : BVal) : BVal :=
  if hasUpdateOperators doc then doc else .mgoM (.cons ("$set") doc .nil)

/-- The update document `ModernColl.Update` passes to the driver's
`UpdateOne` (modern_collection.go): `convertMGOToOfficial(wrapInSetOperator(update))`. -/
def collUpdateUpdateDoc (update : BVal) : BVal :=
  convertMGOToOfficial (wrapInSetOperator update)

/-- The update document `ModernColl.UpdateAll` passes to `UpdateMany`. -/
def collUpdateAllUpdateDoc (update : BVal) : BVal :=
  convertMGOToOfficial (wrapInSetOperator update)

/-- The update document `ModernColl.Upsert` passes to `UpdateOne` with the
upsert option. -/
def collUpsertUpdateDoc (update : BVal) : BVal :=
  convertMGOToOfficial (wrapInSetOperator update)

/-- The update document `ModernQ.Apply` (non-remove) passes to
`FindOneAndUpdate` (modern_query.go). -/
def queryApplyUpdateDoc (update : BVal) : BVal :=
  convertMGOToOfficial (wrapInSetOperator update)

/-- Claim-side notion, following the spec's words: the update document has at
least one top-level key beginning with `$`, whatever its concrete
document shape (unordered map, ordered pair list, or modern document). -/
def docHasTopLevelDollarKey : BVal → Bool
  | .mgoM fs => fs.anyKey isDollarKey
  | .goMap fs => fs.anyKey isDollarKey
  | .mgoD fs => fs.anyKey isDollarKey
  | .offM fs => fs.anyKey isDollarKey
  | .offD fs => fs.anyKey isDollarKey
  | _ => false

/-- Shape test: the Go dynamic type is one of the two unordered-map types
(`bson.M` or `map[string]interface{}`) that `hasUpdateOperators` inspects. -/
def isUnorderedMapShape : BVal → Bool
  | .mgoM _ => true
  | .goMap _ => true
  | _ => false

/-- An ordered-pair-list update document carrying an update operator key. -/
def dollarIncD : BVal :=
  .mgoD (.cons ("$inc") (.vint 1) .nil)

/-- C2 counterexample: an update document shaped as an ordered pair list
(`bson.D`) with the top-level operator key `$inc` is nevertheless wrapped in
`$set` by the façade, so the write issued is not the document unchanged. -/
theorem update_autoset_counterexample :
    docHasTopLevelDollarKey dollarIncD = true ∧
      collUpdateUpdateDoc dollarIncD ≠ convertMGOToOfficial dollarIncD ∧
      collUpdateUpdateDoc dollarIncD =
        convertMGOToOfficial (BVal.mgoM (.cons ("$set") dollarIncD .nil)) := by
  decide

/-- The operator detection is exactly: unordered-map shape and a `$` key. -/
theorem hasUpdateOperators_eq (u : BVal) :
    hasUpdateOperators u = (isUnorderedMapShape u && docHasTopLevelDollarKey u) := by
  cases u <;> rfl

/-- C2 amended: for update documents shaped as `bson.M` or
`map[string]interface{}` the auto-`$set` rule behaves as specified; an update
document of any other shape (notably an ordered `bson.D`) is always wrapped
in `$set`, even when it contains a top-level `$`-prefixed key.  This holds
uniformly for `Update`, `UpdateAll`, `Upsert` and `Query.Apply`. -/
theorem update_autoset_amended (u : BVal) :
    (isUnorderedMapShape u = false ∨ docHasTopLevelDollarKey u = false →
      collUpdateUpdateDoc u = convertMGOToOfficial (BVal.mgoM (.cons ("$set") u .nil)) ∧
      collUpdateAllUpdateDoc u = convertMGOToOfficial (BVal.mgoM (.cons ("$set") u .nil)) ∧
      collUpsertUpdateDoc u = convertMGOToOfficial (BVal.mgoM (.cons ("$set") u .nil)) ∧
      queryApplyUpdateDoc u = convertMGOToOfficial (BVal.mgoM (.cons ("$set") u .nil))) ∧
    (isUnorderedMapShape u = true ∧ docHasTopLevelDollarKey u = true →
      collUpdateUpdateDoc u = convertMGOToOfficial u ∧
      collUpdateAllUpdateDoc u = convertMGOToOfficial u ∧
      collUpsertUpdateDoc u = convertMGOToOfficial u ∧
      queryApplyUpdateDoc u = convertMGOToOfficial u) := by
  have hops := hasUpdateOperators_eq u
  constructor
  · intro h
    have hfalse : hasUpdateOperators u = false := by
      rcases h with h | h <;> simp [hops, h]
    simp [collUpdateUpdateDoc, collUpdateAllUpdateDoc, collUpsertUpdateDoc,
      queryApplyUpdateDoc, wrapInSetOperator, hfalse]
  · intro h
    have htrue : hasUpdateOperators u = true := by
      simp [hops, h.1, h.2]
    simp [collUpdateUpdateDoc, collUpdateAllUpdateDoc, collUpsertUpdateDoc,
      queryApplyUpdateDoc, wrapInSetOperator, htrue]

/-- Witness for the amended auto-`$set` rule: a plain document is wrapped, a
`bson.M` with `$set` is issued unchanged. -/
theorem update_autoset_amended_witness :
    collUpdateUpdateDoc (BVal.vint 3) =
      convertMGOToOfficial (BVal.mgoM (.cons ("$set") (BVal.vint 3) .nil)) ∧
    collUpdateUpdateDoc (BVal.mgoM (.cons ("$set") (BVal.vint 3) .nil)) =
      convertMGOToOfficial (BVal.mgoM (.cons ("$set") (BVal.vint 3) .nil)) :=
  ⟨((update_autoset_amended (BVal.vint 3)).1 (Or.inl (by decide))).1,
   ((update_autoset_amended (BVal.mgoM (.cons ("$set") (BVal.vint 3) .nil))).2
      ⟨by decide, by decide⟩).1⟩

/-! ## Inbound array conversion (claim C4) -/

/-- A 12-byte identifier used in concrete counterexamples. -/
def oid12 : List Nat :=
  [0, 1, 2, 3, 4, 5, 6, 7, 8, 9, 10, 11]

/-- C4 counterexample: a value of the modern driver's native array type
(`primitive.A`) containing a modern identifier is returned unchanged by
`convertOfficialToMGO` — its elements are not recursively converted — even
though converting the identifier alone does produce a legacy identifier. -/
theorem inbound_primitiveA_counterexample :
    convertOfficialToMGO (BVal.offA (.cons (BVal.offOid oid12) .nil)) =
      BVal.offA (.cons (BVal.offOid oid12) .nil) ∧
      convertOfficialToMGO (BVal.offOid oid12) = BVal.mgoOid oid12 := by
  decide

/-- Element conversion of a plain array is the element-wise map of the
inbound converter. -/
theorem convertOfficialToMGOE_toList : ∀ es : Elems,
    (convertOfficialToMGOE es).toList = es.toList.map convertOfficialToMGO
  | .nil => rfl
  | .cons v es => by
      simp [convertOfficialToMGOE, Elems.toList, convertOfficialToMGOE_toList es]

/-- C4 amended: `convertOfficialToMGO` recursively converts each element of a
plain `[]interface{}` array (so identifiers and timestamps nested there come
back as legacy values), but a value of the modern driver's native array type
`primitive.A` does not match that case and passes through unchanged. -/
theorem inbound_array_conversion_amended :
    (∀ es : Elems, convertOfficialToMGO (.arr es) = .arr (convertOfficialToMGOE es)) ∧
    (∀ es : Elems,
      (convertOfficialToMGOE es).toList = es.toList.map convertOfficialToMGO) ∧
    (∀ b : List Nat, convertOfficialToMGO (.offOid b) = .mgoOid b) ∧
    (∀ ms : Int, convertOfficialToMGO (.offDateTime ms) = .mgoTime (timeFromDateTime ms)) ∧
    (∀ es : Elems, convertOfficialToMGO (.offA es) = .offA es) :=
  ⟨fun _ => rfl, convertOfficialToMGOE_toList, fun _ => rfl, fun _ => rfl, fun _ => rfl⟩

/-! ## Cursor iterator (modern_iterator.go)

The underlying driver cursor (`mongodrv.Cursor`) is an external
collaborator; it is modelled at its interface boundary by the documents
it will still deliver, the error `Err()` reports once `Next` returns
false (`none` for a clean end of stream), the error its `Close` reports,
and a closed flag.  The driver's `Close` is idempotent and reports no
error on an already-closed cursor. -/

/-- Errors surfaced by the façade: the `ErrNotFound` sentinel or a
pass-through driver error identified by a code. -/
inductive MgoError : Type where
  | notFound : MgoError
  | driverErr : Nat → MgoError
  deriving DecidableEq

/-- Interface-boundary model of a live `mongodrv.Cursor`. -/
structure MCursor : Type where
  pending : List BVal
  tailErr : Option MgoError
  closeErr : Option MgoError
  closed : Bool
  deriving DecidableEq

/-- State of a `ModernIt`: the wrapped cursor (possibly nil) and the sticky
error slot `it.err`. -/
structure ModernIt : Type where
  cursor : Option MCursor
  err : Option MgoError
  deriving DecidableEq

/-- Outcome of one `ModernIt.Next` call: the boolean result, the document
decoded into the destination (already converted to legacy form), the
number of cursor I/O operations performed, and the new iterator state. -/
structure NextOutcome : Type where
  ok : Bool
  doc : Option BVal
  ioCalls : Nat
  state : ModernIt
  deriving DecidableEq

/-- Go method `ModernIt.Next` (modern_iterator.go): a set sticky error
short-circuits to false; a nil cursor records `ErrNotFound`; otherwise one
cursor advance is performed — at end of stream `cursor.Err()` (which is
`none` for a clean end) becomes the sticky error, else the document is
converted with `convertOfficialToMGO` and decoded into the destination
(decoding a generic document into a generic destination succeeds). -/
def itNext (it : ModernIt) : NextOutcome :=
  match it.err with
  | some _ => ⟨false, none, 0, it⟩
  | none =>
    match it.cursor with
    | none => ⟨false, none, 0, { it with err := some .notFound }⟩
    | some c =>
      match c.pending with
      | [] => ⟨false, none, 1, { cursor := some c, err := c.tailErr }⟩
      | d :: rest =>
          ⟨true, some (convertOfficialToMGO d), 1,
            { cursor := some { c with pending := rest }, err := none }⟩

/-- Go method `ModernIt.Close` (modern_iterator.go): closes the wrapped
cursor if present; a close-time error is recorded only when the sticky slot
is still empty; the (possibly updated) sticky error is returned. -/
def itClose (it : ModernIt) : Option MgoError × ModernIt :=
  match it.cursor with
  | none => (it.err, it)
  | some c =>
      let closeResult : Option MgoError := if c.closed then none else c.closeErr
      let c' := { c with closed := true }
      let err' := match it.err, closeResult with
        | none, some e => some e
        | e, _ => e
      (err', { cursor := some c', err := err' })

/-- Repeatedly call `Next` until it returns false (with enough fuel),
returning the final iterator state. -/
def itDrain : Nat → ModernIt → ModernIt
  | 0, it => it
  | fuel + 1, it =>
      let r := itNext it
      if r.ok then itDrain fuel r.state else r.state

/-- Draining a clean cursor consumes exactly its pending documents and
never sets the sticky error. -/
theorem itDrain_clean : ∀ (docs : List BVal) (te ce : Option MgoError) (cl : Bool),
    te = none →
    itDrain (docs.length + 1)
        { cursor := some ⟨docs, te, ce, cl⟩, err := none } =
      { cursor := some ⟨[], te, ce, cl⟩, err := none }
  | [], te, ce, cl, h => by subst h; rfl
  | d :: docs, te, ce, cl, h => by
      subst h
      simpa [itDrain, itNext] using itDrain_clean docs none ce cl rfl

/-- C3: once the sticky error slot is non-nil every `Next` returns false
with no cursor I/O and an unchanged state; draining to the natural end
leaves the sticky slot nil and the next `Next` still returns false without
recording an error; `Close` is idempotent, records a close-time error only
when no error was previously recorded, and returns the sticky error. -/
theorem iterator_sticky_error_properties :
    (∀ (it : ModernIt) (e : MgoError), it.err = some e →
      itNext it = ⟨false, none, 0, it⟩) ∧
    (∀ (docs : List BVal) (ce : Option MgoError) (cl : Bool),
      let drained := itDrain (docs.length + 1)
        { cursor := some ⟨docs, none, ce, cl⟩, err := none }
      drained.err = none ∧ (itNext drained).ok = false ∧
        (itNext drained).state.err = none) ∧
    (∀ it : ModernIt, itClose (itClose it).2 = itClose it) ∧
    (∀ (it : ModernIt) (e : MgoError), it.err = some e →
      (itClose it).1 = some e ∧ (itClose it).2.err = some e) ∧
    (∀ (it : ModernIt) (c : MCursor), it.err = none → it.cursor = some c →
      c.closed = false → (itClose it).1 = c.closeErr) ∧
    (∀ it : ModernIt, (itClose it).1 = (itClose it).2.err) := by
  refine ⟨?_, ?_, ?_, ?_, ?_, ?_⟩
  · intro it e he
    simp [itNext, he]
  · intro docs ce cl
    rw [itDrain_clean docs none ce cl rfl]
    refine ⟨rfl, ?_, ?_⟩ <;> simp [itNext]
  · intro it
    rcases it with ⟨c, err⟩
    cases c with
    | none => rfl
    | some c =>
        cases err with
        | none => cases hc : c.closeErr <;> simp [itClose, hc]
        | some e => simp [itClose]
  · intro it e he
    rcases it with ⟨c, err⟩
    simp only [ModernIt.err] at he
    subst he
    cases c <;> simp [itClose]
  · intro it c herr hc hcl
    rcases it with ⟨c?, err⟩
    cases hc
    cases herr
    cases hcc : c.closeErr <;> simp [itClose, hcl, hcc]
  · intro it
    rcases it with ⟨c, err⟩
    cases c with
    | none => rfl
    | some c =>
        cases err with
        | none => cases hc : c.closed <;> cases hce : c.closeErr <;> simp [itClose, hc, hce]
        | some e => simp [itClose]

/-- Witness for the sticky-error properties at a concrete errored iterator
and a concrete two-document cursor. -/
theorem iterator_sticky_error_properties_witness :
    itNext ⟨none, some (.driverErr 5)⟩ = ⟨false, none, 0, ⟨none, some (.driverErr 5)⟩⟩ ∧
    (itClose ⟨some ⟨[], none, some (.driverErr 7), false⟩, some .notFound⟩).1 =
      some MgoError.notFound ∧
    (itClose ⟨some ⟨[], none, some (.driverErr 7), false⟩, none⟩).1 =
      some (MgoError.driverErr 7) :=
  ⟨iterator_sticky_error_properties.1 _ (.driverErr 5) rfl,
   (iterator_sticky_error_properties.2.2.2.1 _ .notFound rfl).1,
   iterator_sticky_error_properties.2.2.2.2.1 _ ⟨[], none, some (.driverErr 7), false⟩ rfl rfl rfl⟩

/-! ## Session copy/close (modern_session.go) -/

/-- State of a `ModernMGO` session handle.  The shared driver client is
identified by a number; `none` models a nil client pointer. -/
structure ModernMGO : Type where
  client : Option Nat
  dbName : String
  mode : Int
  safe : Option Nat
  isOriginal : Bool
  deriving DecidableEq

/-- Go function `DialModernMGO`: the originally-dialed handle owns the client
and is marked as the original session. -/
def DialModernMGO (clientId : Nat) (dbName : String) : ModernMGO :=
  { client := some clientId, dbName := dbName, mode := 2, safe := some 1,
    isOriginal := true }

/-- Go method `ModernMGO.Close`: the observable effect — the client that
`Disconnect` is issued on, if any.  Disconnect happens only when the handle
is the original session and the client is non-nil. -/
def ModernMGO.Close (m : ModernMGO) : Option Nat :=
  if m.isOriginal then m.client else none

/-- Go method `ModernMGO.Copy`: reuse the same client, mark as a copy. -/
def ModernMGO.Copy (m : ModernMGO) : ModernMGO :=
  { client := m.client, dbName := m.dbName, mode := m.mode, safe := m.safe,
    isOriginal := false }

/-- Go method `ModernMGO.Clone`: behaves exactly like `Copy`. -/
def ModernMGO.Clone (m : ModernMGO) : ModernMGO :=
  m.Copy

/-- C8: closing a session copy or clone never issues a disconnect on the
shared client (which the copy shares with the original), while closing the
originally-dialed handle disconnects exactly that shared client. -/
theorem session_copy_close_frame (m : ModernMGO) (clientId : Nat) (db : String) :
    ModernMGO.Close m.Copy = none ∧
    ModernMGO.Close m.Clone = none ∧
    m.Copy.client = m.client ∧
    m.Clone.client = m.client ∧
    ModernMGO.Close (DialModernMGO clientId db) = some clientId := by
  refine ⟨rfl, rfl, rfl, rfl, rfl⟩

/-! ## Bulk operations (ModernBulk) -/

/-- A queued driver write model (`mongodrv.WriteModel`). -/
inductive WriteModel : Type where
  | insertOne : BVal → WriteModel
  | updateOne : BVal → BVal → Bool → WriteModel
  | updateMany : BVal → BVal → WriteModel
  | deleteOne : BVal → WriteModel
  | deleteMany : BVal → WriteModel
  deriving DecidableEq

/-- State of a `ModernBulk` builder. -/
structure ModernBulk : Type where
  operations : List WriteModel
  ordered : Bool
  opcount : Nat
  deriving DecidableEq

/-- Go method `ModernColl.Bulk`: a fresh ordered batch with no operations. -/
def newModernBulk : ModernBulk :=
  { operations := [], ordered := true, opcount := 0 }

/-- The selector replacement at the top of each pair-processing loop:
Go `if selector == nil { selector = bson.D{} }`. -/
def selectorOrEmpty (sel : BVal) : BVal :=
  if sel = BVal.vnull then BVal.mgoD .nil else sel

/-- The write models queued by the pair loop of `ModernBulk.Update`
(src/unnamed/part_000): one `UpdateOneModel` per selector/update pair,
both converted with `convertMGOToOfficial`. -/
def updatePairModels : List BVal → List WriteModel
  | [] => []
  | sel :: upd :: rest =>
      .updateOne (convertMGOToOfficial (selectorOrEmpty sel))
          (convertMGOToOfficial upd) false :: updatePairModels rest
  | [_] => []

/-- The write models queued by the pair loop of `ModernBulk.UpdateAll`:
one `UpdateManyModel` per pair. -/
def updateAllPairModels : List BVal → List WriteModel
  | [] => []
  | sel :: upd :: rest =>
      .updateMany (convertMGOToOfficial (selectorOrEmpty sel))
          (convertMGOToOfficial upd) :: updateAllPairModels rest
  | [_] => []

/-- The write models queued by the pair loop of `ModernBulk.Upsert`:
one `UpdateOneModel` with the upsert option per pair. -/
def upsertPairModels : List BVal → List WriteModel
  | [] => []
  | sel :: upd :: rest =>
      .updateOne (convertMGOToOfficial (selectorOrEmpty sel))
          (convertMGOToOfficial upd) true :: upsertPairModels rest
  | [_] => []

/-- Go method `ModernBulk.Update`: panics (modelled as `none`) when given an
odd number of arguments, before queuing anything; otherwise queues one
update-one model per pair and bumps the operation counter per pair. -/
def ModernBulk.Update (b : ModernBulk) (pairs : List BVal) : Option ModernBulk :=
  if pairs.length % 2 ≠ 0 then none
  else some { b with operations := b.operations ++ updatePairModels pairs,
                     opcount := b.opcount + pairs.length / 2 }

/-- Go method `ModernBulk.UpdateAll`: like `Update` with update-many models. -/
def ModernBulk.UpdateAll (b : ModernBulk) (pairs : List BVal) : Option ModernBulk :=
  if pairs.length % 2 ≠ 0 then none
  else some { b with operations := b.operations ++ updateAllPairModels pairs,
                     opcount := b.opcount + pairs.length / 2 }

/-- Go method `ModernBulk.Upsert`: like `Update` with the upsert option set. -/
def ModernBulk.Upsert (b : ModernBulk) (pairs : List BVal) : Option ModernBulk :=
  if pairs.length % 2 ≠ 0 then none
  else some { b with operations := b.operations ++ upsertPairModels pairs,
                     opcount := b.opcount + pairs.length / 2 }

/-- One queued model per pair. -/
theorem updatePairModels_length : ∀ ps : List BVal,
    (updatePairModels ps).length = ps.length / 2
  | [] => rfl
  | [_] => by simp [updatePairModels]
  | _ :: _ :: rest => by
      simp only [updatePairModels, List.length_cons, List.length]
      rw [updatePairModels_length rest]
      omega

/-- One queued model per pair. -/
theorem updateAllPairModels_length : ∀ ps : List BVal,
    (updateAllPairModels ps).length = ps.length / 2
  | [] => rfl
  | [_] => by simp [updateAllPairModels]
  | _ :: _ :: rest => by
      simp only [updateAllPairModels, List.length_cons, List.length]
      rw [updateAllPairModels_length rest]
      omega

/-- One queued model per pair. -/
theorem upsertPairModels_length : ∀ ps : List BVal,
    (upsertPairModels ps).length = ps.length / 2
  | [] => rfl
  | [_] => by simp [upsertPairModels]
  | _ :: _ :: rest => by
      simp only [upsertPairModels, List.length_cons, List.length]
      rw [upsertPairModels_length rest]
      omega

/-- C10: with an odd number of arguments `Bulk.Update`, `Bulk.UpdateAll` and
`Bulk.Upsert` panic without queuing anything; with `2k` arguments each queues
exactly `k` write models and bumps the operation counter by `k`; a nil
selector in a pair is replaced by an empty document. -/
theorem bulk_update_pair_queueing (b : ModernBulk) (pairs : List BVal) :
    (pairs.length % 2 = 1 →
      ModernBulk.Update b pairs = none ∧
      ModernBulk.UpdateAll b pairs = none ∧
      ModernBulk.Upsert b pairs = none) ∧
    (pairs.length % 2 = 0 →
      ModernBulk.Update b pairs =
        some { b with operations := b.operations ++ updatePairModels pairs,
                      opcount := b.opcount + pairs.length / 2 } ∧
      ModernBulk.UpdateAll b pairs =
        some { b with operations := b.operations ++ updateAllPairModels pairs,
                      opcount := b.opcount + pairs.length / 2 } ∧
      ModernBulk.Upsert b pairs =
        some { b with operations := b.operations ++ upsertPairModels pairs,
                      opcount := b.opcount + pairs.length / 2 } ∧
      (updatePairModels pairs).length = pairs.length / 2 ∧
      (updateAllPairModels pairs).length = pairs.length / 2 ∧
      (upsertPairModels pairs).length = pairs.length / 2) ∧
    (∀ (u : BVal) (rest : List BVal),
      updatePairModels (BVal.vnull :: u :: rest) =
        updatePairModels (BVal.mgoD .nil :: u :: rest) ∧
      updateAllPairModels (BVal.vnull :: u :: rest) =
        updateAllPairModels (BVal.mgoD .nil :: u :: rest) ∧
      upsertPairModels (BVal.vnull :: u :: rest) =
        upsertPairModels (BVal.mgoD .nil :: u :: rest)) := by
  refine ⟨fun hodd => ?_, fun heven => ?_, fun u rest => ?_⟩
  · simp [ModernBulk.Update, ModernBulk.UpdateAll, ModernBulk.Upsert, hodd]
  · exact ⟨by simp [ModernBulk.Update, heven], by simp [ModernBulk.UpdateAll, heven],
      by simp [ModernBulk.Upsert, heven], updatePairModels_length pairs,
      updateAllPairModels_length pairs, upsertPairModels_length pairs⟩
  · refine ⟨?_, ?_, ?_⟩ <;>
      simp [updatePairModels, updateAllPairModels, upsertPairModels, selectorOrEmpty]

/-- Witness for the pair-queueing behavior: one odd call panics, one
two-argument call queues a single model. -/
theorem bulk_update_pair_queueing_witness :
    ModernBulk.Update newModernBulk [BVal.vint 1] = none ∧
    ModernBulk.Update newModernBulk [BVal.vnull, BVal.vint 1] =
      some { operations := [.updateOne (convertMGOToOfficial (BVal.mgoD .nil))
                              (convertMGOToOfficial (BVal.vint 1)) false],
             ordered := true, opcount := 1 } :=
  ⟨((bulk_update_pair_queueing newModernBulk [BVal.vint 1]).1 (by decide)).1,
   ((bulk_update_pair_queueing newModernBulk [BVal.vnull, BVal.vint 1]).2.1 (by decide)).1⟩

/-! ## Bulk Run (C9) -/

/-- The modern driver's `BulkWriteResult` counts. -/
structure BulkWriteResult : Type where
  matchedCount : Int
  modifiedCount : Int
  deletedCount : Int
  upsertedCount : Int
  deriving DecidableEq

/-- The legacy-shaped `BulkResult`. -/
structure BulkResult : Type where
  matched : Int
  modified : Int
  deriving DecidableEq

/-- Structured code-and-message error mirroring the legacy surface. -/
structure QueryError : Type where
  code : Int
  message : String
  deriving DecidableEq

/-- One failed operation inside a bulk error. -/
structure BulkErrorCase : Type where
  index : Int
  err : QueryError
  deriving DecidableEq

/-- Aggregate of per-operation bulk failures. -/
structure BulkError : Type where
  ecases : List BulkErrorCase
  deriving DecidableEq

/-- A write error reported by the driver inside a `BulkWriteException`. -/
structure BulkWriteErr : Type where
  index : Int
  code : Int
  message : String
  deriving DecidableEq

/-- The driver's write-concern error. -/
structure WriteConcernErr : Type where
  code : Int
  message : String
  deriving DecidableEq

/-- Interface-boundary model of the driver's reply to `BulkWrite`. -/
inductive BulkDriverReply : Type where
  | ok : BulkWriteResult → BulkDriverReply
  | bulkException : Option BulkWriteResult → List BulkWriteErr →
      Option WriteConcernErr → String → BulkDriverReply
  | otherErr : Nat → BulkDriverReply
  deriving DecidableEq

/-- Go function `ModernBulk.convertBulkResult`: deletes count toward both
matched and modified, upserts toward modified. -/
def convertBulkResult (r : Option BulkWriteResult) : BulkResult :=
  match r with
  | none => { matched := 0, modified := 0 }
  | some r =>
      { matched := r.matchedCount + r.deletedCount,
        modified := r.modifiedCount + r.deletedCount + r.upsertedCount }

/-- Go function `ModernBulk.convertBulkError`: one error case per write
error, a write-concern error gets index `-1`, and an exception with no
decodable cases yields a single catch-all case built from its message. -/
def convertBulkError (result : Option BulkWriteResult) (writeErrors : List BulkWriteErr)
    (wcErr : Option WriteConcernErr) (msg : String) : BulkResult × BulkError :=
  let ecases := writeErrors.map fun we =>
    BulkErrorCase.mk we.index (QueryError.mk we.code we.message)
  let ecases := match wcErr with
    | some wce => ecases ++ [BulkErrorCase.mk (-1) (QueryError.mk wce.code wce.message)]
    | none => ecases
  let bulkResult := convertBulkResult result
  if 0 < ecases.length then (bulkResult, BulkError.mk ecases)
  else (bulkResult, BulkError.mk [BulkErrorCase.mk (-1) (QueryError.mk 0 msg)])

/-- Possible error outcomes of `ModernBulk.Run`. -/
inductive BulkRunError : Type where
  | bulk : BulkError → BulkRunError
  | passthrough : Nat → BulkRunError
  deriving DecidableEq

/-- Go method `ModernBulk.Run` (src/unnamed/part_000): with no queued
operations it returns an empty `BulkResult` and no error without calling the
driver; otherwise it issues one `BulkWrite` and translates the reply.  The
last component records whether the driver was called. -/
def ModernBulk.Run (b : ModernBulk) (reply : BulkDriverReply) :
    Option BulkResult × Option BulkRunError × Bool :=
  if b.operations.length = 0 then (some { matched := 0, modified := 0 }, none, false)
  else
    match reply with
    | .ok r => (some (convertBulkResult (some r)), none, true)
    | .bulkException partRes writeErrors wcErr msg =>
        let (res, berr) := convertBulkError partRes writeErrors wcErr msg
        (some res, some (.bulk berr), true)
    | .otherErr code => (none, some (.passthrough code), true)

/-- C9: a bulk batch with zero queued operations runs to an empty result
(zero matched, zero modified) with no error and without any driver call. -/
theorem bulk_run_empty_batch (b : ModernBulk) (reply : BulkDriverReply)
    (h : b.operations = []) :
    ModernBulk.Run b reply = (some { matched := 0, modified := 0 }, none, false) := by
  simp [ModernBulk.Run, h]

/-- Witness for the empty bulk run at a fresh batch. -/
theorem bulk_run_empty_batch_witness :
    ModernBulk.Run newModernBulk (.otherErr 3) =
      (some { matched := 0, modified := 0 }, none, false) :=
  bulk_run_empty_batch newModernBulk (.otherErr 3) rfl

/-! ## Find-and-modify (ModernQ.Apply, modern_query.go)

The driver calls issued by `Apply` are modelled at the interface boundary
by the replies the driver would give to them: the pre-check `FindOne`
(consulted only when upserting), the `FindOneAndUpdate` /
`FindOneAndDelete` itself, and the recovery `FindOne` re-query issued
after an upsert that created a document while the caller asked for the
"before" document. -/

/-- The legacy change specification. -/
structure Change : Type where
  update : BVal
  upsert : Bool
  remove : Bool
  returnNew : Bool
  deriving DecidableEq

/-- The legacy change outcome. -/
structure ChangeInfo : Type where
  updated : Int
  removed : Int
  matched : Int
  upsertedId : Option BVal
  deriving DecidableEq

/-- The zero value `&ChangeInfo{}`. -/
def emptyChangeInfo : ChangeInfo :=
  { updated := 0, removed := 0, matched := 0, upsertedId := none }

/-- Outcome of a driver single-result operation (`FindOneAndUpdate`,
`FindOneAndDelete`): a decoded document, the `ErrNoDocuments` sentinel, or
another error. -/
inductive SingleResult : Type where
  | doc : BVal → SingleResult
  | noDocuments : SingleResult
  | err : Nat → SingleResult
  deriving DecidableEq

/-- Replies of the driver to the calls `Apply` can issue. -/
structure ApplyOracle : Type where
  precheckDoc : Option BVal
  famResult : SingleResult
  requeryDoc : Option BVal
  deriving DecidableEq

/-- The key of the identifier field. -/
def idKey : String :=
  "_id"

/-- Field access `newDoc["_id"]` on a decoded `officialBson.M` document. -/
def docGet (d : BVal) (key : String) : Option BVal :=
  match d with
  | .offM fs => fs.lookup key
  | _ => none

/-- Go method `ModernQ.Apply` (modern_query.go): remove issues a
find-and-delete; otherwise the update is auto-`$set`-wrapped and a
find-and-update is issued with the upsert / return-before-or-after options.
When the driver reports no documents although a non-return-new upsert
created one (detected by the pre-check), the façade re-queries by filter
and reports the created document's identifier instead of NotFound. -/
def ModernQApply (change : Change) (oracle : ApplyOracle) :
    Option ChangeInfo × Option MgoError :=
  if change.remove then
    match oracle.famResult with
    | .noDocuments => (some emptyChangeInfo, some .notFound)
    | .err code => (none, some (.driverErr code))
    | .doc _ => (some { emptyChangeInfo with removed := 1 }, none)
  else
    let _updateDoc := convertMGOToOfficial (wrapInSetOperator change.update)
    let wasUpsert := change.upsert && oracle.precheckDoc.isNone
    match oracle.famResult with
    | .noDocuments =>
        if change.upsert && !change.returnNew && wasUpsert then
          match oracle.requeryDoc with
          | some newDoc =>
              (some { emptyChangeInfo with
                        upsertedId := (docGet newDoc idKey).map convertOfficialToMGO },
               none)
          | none => (some emptyChangeInfo, some .notFound)
        else (some emptyChangeInfo, some .notFound)
    | .err code => (none, some (.driverErr code))
    | .doc d =>
        if wasUpsert then
          (some { emptyChangeInfo with
                    upsertedId := (docGet d idKey).map convertOfficialToMGO }, none)
        else
          (some { emptyChangeInfo with updated := 1, matched := 1 }, none)

/-- C6: an `Apply` with upsert, return-old and non-remove against a filter
matching no document, where the find-and-update reports no documents
because the upsert created one (recovered by the re-query), returns a
`ChangeInfo` whose `UpsertedId` is populated with the created document's
identifier (converted to legacy form) and a nil error — not NotFound. -/
theorem apply_upsert_returnold_reports_upserted_id
    (change : Change) (oracle : ApplyOracle) (newDoc idv : BVal)
    (hupsert : change.upsert = true) (hremove : change.remove = false)
    (hreturn : change.returnNew = false)
    (hpre : oracle.precheckDoc = none)
    (hfam : oracle.famResult = .noDocuments)
    (hre : oracle.requeryDoc = some newDoc)
    (hid : docGet newDoc idKey = some idv) :
    ModernQApply change oracle =
      (some { emptyChangeInfo with upsertedId := some (convertOfficialToMGO idv) },
       none) := by
  simp [ModernQApply, hupsert, hremove, hreturn, hpre, hfam, hre, hid]

/-- Witness for the upsert identifier recovery at a concrete change and
driver reply. -/
theorem apply_upsert_returnold_reports_upserted_id_witness :
    ModernQApply
        { update := BVal.mgoM (.cons ("v") (.vstr ("x")) .nil),
          upsert := true, remove := false, returnNew := false }
        { precheckDoc := none, famResult := .noDocuments,
          requeryDoc := some (BVal.offM (.cons ("_id") (.offOid oid12) .nil)) } =
      (some { emptyChangeInfo with
                upsertedId := some (convertOfficialToMGO (BVal.offOid oid12)) },
       none) :=
  apply_upsert_returnold_reports_upserted_id _ _
    (BVal.offM (.cons ("_id") (.offOid oid12) .nil)) (BVal.offOid oid12)
    rfl rfl rfl rfl rfl rfl (by decide)

/-! ## GridFS write path (ModernGridFile.Write, modern_types.go)

Bytes are modelled as natural numbers; a chunk is a byte list.  The Go
`for len(remainingData) > 0` loop is rendered as a fuel-indexed recursion;
`gridWriteLoop_spec` proves the fuel chosen by `Write` suffices whenever
the configured chunk size is positive (with a non-positive chunk size the
Go loop itself never terminates). -/

/-- Write-mode state of a `ModernGridFile` (the fields the write path
touches). -/
structure ModernGridFile : Type where
  chunkSize : Nat
  length : Nat
  chunks : List (List Nat)
  chunkIndex : Nat
  closed : Bool
  deriving DecidableEq

/-- Go method `ModernGridFS.Create`: a fresh write-mode file with the
default 255 KiB chunk size and no buffered chunks. -/
def gridCreate : ModernGridFile :=
  { chunkSize := 255 * 1024, length := 0, chunks := [], chunkIndex := 0,
    closed := false }

/-- Go method `ModernGridFile.SetChunkSize`. -/
def ModernGridFile.SetChunkSize (f : ModernGridFile) (n : Nat) : ModernGridFile :=
  { f with chunkSize := n }

/-- Go slice indexing `f.chunks[i]` (out-of-range reads, which the write
loop never performs, give the empty chunk). -/
def chunkAt : List (List Nat) → Nat → List Nat
  | [], _ => []
  | c :: _, 0 => c
  | _ :: rest, n + 1 => chunkAt rest n

/-- Go slice element assignment `f.chunks[i] = x` (out-of-range writes,
which the write loop never performs, are dropped). -/
def setChunk : List (List Nat) → Nat → List Nat → List (List Nat)
  | [], _, _ => []
  | _ :: rest, 0, x => x :: rest
  | c :: rest, n + 1, x => c :: setChunk rest n x

/-- The body of the Go write loop.  One iteration: append a fresh chunk when
the index is past the end, skip a full chunk, otherwise copy
`min(len(remainingData), spaceInChunk)` bytes into the current chunk,
advancing the index once the chunk reaches the chunk size. -/
def gridWriteLoop : Nat → Nat → List (List Nat) → Nat → List Nat → Nat →
    Option (List (List Nat) × Nat × Nat)
  | 0, _, _, _, _, _ => none
  | _ + 1, _, chunks, ci, [], acc => some (chunks, ci, acc)
  | fuel + 1, cs, chunks, ci, r :: rs, acc =>
      let chunks1 := if chunks.length ≤ ci then chunks ++ [[]] else chunks
      let current := chunkAt chunks1 ci
      if cs - current.length = 0 then
        gridWriteLoop fuel cs chunks1 (ci + 1) (r :: rs) acc
      else
        let toWrite := min (r :: rs).length (cs - current.length)
        gridWriteLoop fuel cs (setChunk chunks1 ci (current ++ (r :: rs).take toWrite))
          (if cs ≤ current.length + toWrite then ci + 1 else ci)
          ((r :: rs).drop toWrite) (acc + toWrite)

/-- Go method `ModernGridFile.Write`: rejects a closed file, then runs the
chunk-splitting loop and adds the number of bytes written to the tracked
total length.  The fuel is a loop-iteration bound shown sufficient for any
positive chunk size by `gridWriteLoop_spec`. -/
def ModernGridFile.Write (f : ModernGridFile) (data : List Nat) :
    Except String (ModernGridFile × Nat) :=
  if f.closed then Except.error ("file is closed")
  else
    match gridWriteLoop (2 * data.length + f.chunks.length + 3) f.chunkSize
        f.chunks f.chunkIndex data 0 with
    | none => Except.error ("write loop did not terminate")
    | some (chunks2, ci2, written) =>
        Except.ok ({ f with chunks := chunks2, chunkIndex := ci2,
                            length := f.length + written }, written)

/-- Setting a chunk keeps the number of chunks. -/
theorem setChunk_length : ∀ (l : List (List Nat)) (n : Nat) (x : List Nat),
    (setChunk l n x).length = l.length
  | [], _, _ => rfl
  | _ :: _, 0, _ => rfl
  | _ :: rest, n + 1, x => by
      simp [setChunk, setChunk_length rest n x]

/-- A member of an updated chunk list is an old chunk or the new chunk. -/
theorem mem_setChunk : ∀ (l : List (List Nat)) (n : Nat) (x c : List Nat),
    c ∈ setChunk l n x → c ∈ l ∨ c = x
  | [], _, _, _, h => Or.inl h
  | _ :: rest, 0, x, c, h => by
      rcases List.mem_cons.1 h with h | h
      · exact Or.inr h
      · exact Or.inl (List.mem_cons.2 (Or.inr h))
  | a :: rest, n + 1, x, c, h => by
      rcases List.mem_cons.1 h with h | h
      · exact Or.inl (List.mem_cons.2 (Or.inl h))
      · rcases mem_setChunk rest n x c h with h | h
        · exact Or.inl (List.mem_cons.2 (Or.inr h))
        · exact Or.inr h

/-- An in-range chunk read is a member of the chunk list. -/
theorem chunkAt_mem : ∀ (l : List (List Nat)) (n : Nat), n < l.length →
    chunkAt l n ∈ l
  | [], n, h => by simp at h
  | c :: rest, 0, _ => List.mem_cons.2 (Or.inl rfl)
  | c :: rest, n + 1, h =>
      List.mem_cons.2 (Or.inr (chunkAt_mem rest n (by simpa using h)))

/-- Reading at or past the old length after appending an empty chunk gives
the empty chunk. -/
theorem chunkAt_append_empty_of_le : ∀ (l : List (List Nat)) (n : Nat),
    l.length ≤ n → chunkAt (l ++ [[]]) n = []
  | [], 0, _ => rfl
  | [], n + 1, _ => by simp [chunkAt]
  | c :: rest, 0, h => by simp at h
  | c :: rest, n + 1, h => by
      simpa [chunkAt] using chunkAt_append_empty_of_le rest n (by simpa using h)

/-- Unfolding of the write loop when the chunk index is past the end: a
fresh empty chunk is appended and receives the first bytes. -/
theorem gridWriteLoop_append (fuel cs : Nat) (chunks : List (List Nat))
    (ci : Nat) (r : Nat) (rs : List Nat) (acc : Nat)
    (happ : chunks.length ≤ ci) (hcs : 1 ≤ cs) :
    gridWriteLoop (fuel + 1) cs chunks ci (r :: rs) acc =
      gridWriteLoop fuel cs
        (setChunk (chunks ++ [[]]) ci ((r :: rs).take (min (r :: rs).length cs)))
        (if cs ≤ min (r :: rs).length cs then ci + 1 else ci)
        ((r :: rs).drop (min (r :: rs).length cs))
        (acc + min (r :: rs).length cs) := by
  have hcur : chunkAt (chunks ++ [[]]) ci = [] :=
    chunkAt_append_empty_of_le chunks ci happ
  have hne : ¬(cs = 0) := by omega
  simp only [gridWriteLoop, if_pos happ, hcur, List.length_nil, Nat.sub_zero,
    if_neg hne, List.nil_append, Nat.zero_add]

/-- Unfolding of the write loop when the current chunk is already full. -/
theorem gridWriteLoop_skipFull (fuel cs : Nat) (chunks : List (List Nat))
    (ci : Nat) (r : Nat) (rs : List Nat) (acc : Nat)
    (hlt : ci < chunks.length) (hfull : cs - (chunkAt chunks ci).length = 0) :
    gridWriteLoop (fuel + 1) cs chunks ci (r :: rs) acc =
      gridWriteLoop fuel cs chunks (ci + 1) (r :: rs) acc := by
  have hnapp : ¬(chunks.length ≤ ci) := by omega
  simp only [gridWriteLoop, if_neg hnapp, if_pos hfull]

/-- Unfolding of the write loop when the current chunk has room: bytes are
copied in up to the available space. -/
theorem gridWriteLoop_fill (fuel cs : Nat) (chunks : List (List Nat))
    (ci : Nat) (r : Nat) (rs : List Nat) (acc : Nat)
    (hlt : ci < chunks.length)
    (hroom : ¬(cs - (chunkAt chunks ci).length = 0)) :
    gridWriteLoop (fuel + 1) cs chunks ci (r :: rs) acc =
      gridWriteLoop fuel cs
        (setChunk chunks ci ((chunkAt chunks ci) ++
          (r :: rs).take (min (r :: rs).length (cs - (chunkAt chunks ci).length))))
        (if cs ≤ (chunkAt chunks ci).length +
            min (r :: rs).length (cs - (chunkAt chunks ci).length)
          then ci + 1 else ci)
        ((r :: rs).drop (min (r :: rs).length (cs - (chunkAt chunks ci).length)))
        (acc + min (r :: rs).length (cs - (chunkAt chunks ci).length)) := by
  have hnapp : ¬(chunks.length ≤ ci) := by omega
  simp only [gridWriteLoop, if_neg hnapp, if_neg hroom]

/-- The write loop terminates within the measure-derived fuel for any
positive chunk size, writes every remaining byte, keeps every buffered
chunk at or below the chunk size, and keeps the chunk index in range. -/
theorem gridWriteLoop_spec (cs : Nat) (hcs : 1 ≤ cs) :
    ∀ (fuel : Nat) (chunks : List (List Nat)) (ci : Nat) (rem : List Nat) (acc : Nat),
    ci ≤ chunks.length → (∀ c ∈ chunks, c.length ≤ cs) →
    2 * rem.length + (chunks.length - ci) + 1 ≤ fuel →
    ∃ chunks2 ci2,
      gridWriteLoop fuel cs chunks ci rem acc = some (chunks2, ci2, acc + rem.length) ∧
      ci2 ≤ chunks2.length ∧ (∀ c ∈ chunks2, c.length ≤ cs) := by
  intro fuel
  induction fuel with
  | zero =>
      intro chunks ci rem acc _ _ hfuel
      omega
  | succ fuel ih =>
      intro chunks ci rem acc hci hall hfuel
      cases rem with
      | nil =>
          exact ⟨chunks, ci, by simp [gridWriteLoop], hci, hall⟩
      | cons r rs =>
          have hR : (r :: rs).length = rs.length + 1 := by simp
          by_cases happ : chunks.length ≤ ci
          · -- a fresh empty chunk is appended and receives the first bytes
            have hcieq : ci = chunks.length := Nat.le_antisymm hci happ
            have hT1 : 1 ≤ min (r :: rs).length cs := by
              refine le_min ?_ hcs
              omega
            have hTle : min (r :: rs).length cs ≤ (r :: rs).length :=
              Nat.min_le_left _ _
            have hTcs : min (r :: rs).length cs ≤ cs := Nat.min_le_right _ _
            have htakelen : ((r :: rs).take (min (r :: rs).length cs)).length =
                min (r :: rs).length cs := by
              rw [List.length_take]
              exact Nat.min_eq_left hTle
            have hdroplen : ((r :: rs).drop (min (r :: rs).length cs)).length =
                (r :: rs).length - min (r :: rs).length cs := List.length_drop _ _
            have hsetlen : (setChunk (chunks ++ [[]]) ci
                ((r :: rs).take (min (r :: rs).length cs))).length =
                chunks.length + 1 := by
              rw [setChunk_length]
              simp
            obtain ⟨chunks2, ci2, heq, hci2, hall2⟩ :=
              ih (setChunk (chunks ++ [[]]) ci ((r :: rs).take (min (r :: rs).length cs)))
                (if cs ≤ min (r :: rs).length cs then ci + 1 else ci)
                ((r :: rs).drop (min (r :: rs).length cs))
                (acc + min (r :: rs).length cs)
                (by rw [hsetlen]; split <;> omega)
                (by
                  intro c hc
                  rcases mem_setChunk _ _ _ _ hc with hc | hc
                  · rcases List.mem_append.1 hc with hc | hc
                    · exact hall c hc
                    · simp at hc
                      subst hc
                      simp
                  · subst hc
                    rw [htakelen]
                    exact hTcs)
                (by rw [hsetlen, hdroplen]; split <;> omega)
            refine ⟨chunks2, ci2, ?_, hci2, hall2⟩
            rw [gridWriteLoop_append fuel cs chunks ci r rs acc happ hcs, heq]
            have hacc : acc + min (r :: rs).length cs +
                ((r :: rs).drop (min (r :: rs).length cs)).length =
                acc + (r :: rs).length := by
              rw [hdroplen]
              omega
            rw [hacc]
          · -- the chunk index points at an existing chunk
            have hlt : ci < chunks.length := by omega
            have hmem : chunkAt chunks ci ∈ chunks := chunkAt_mem chunks ci hlt
            have hcl : (chunkAt chunks ci).length ≤ cs := hall _ hmem
            by_cases hfull : cs - (chunkAt chunks ci).length = 0
            · -- the current chunk is full: move to the next one
              obtain ⟨chunks2, ci2, heq, hci2, hall2⟩ :=
                ih chunks (ci + 1) (r :: rs) acc (by omega) hall (by omega)
              refine ⟨chunks2, ci2, ?_, hci2, hall2⟩
              rw [gridWriteLoop_skipFull fuel cs chunks ci r rs acc hlt hfull, heq]
            · -- the current chunk has room for at least one byte
              have hsp1 : 1 ≤ cs - (chunkAt chunks ci).length := by omega
              have hT1 : 1 ≤ min (r :: rs).length (cs - (chunkAt chunks ci).length) := by
                refine le_min ?_ hsp1
                omega
              have hTle : min (r :: rs).length (cs - (chunkAt chunks ci).length) ≤
                  (r :: rs).length := Nat.min_le_left _ _
              have hTsp : min (r :: rs).length (cs - (chunkAt chunks ci).length) ≤
                  cs - (chunkAt chunks ci).length := Nat.min_le_right _ _
              have htakelen : ((r :: rs).take
                  (min (r :: rs).length (cs - (chunkAt chunks ci).length))).length =
                  min (r :: rs).length (cs - (chunkAt chunks ci).length) := by
                rw [List.length_take]
                exact Nat.min_eq_left hTle
              have hdroplen : ((r :: rs).drop
                  (min (r :: rs).length (cs - (chunkAt chunks ci).length))).length =
                  (r :: rs).length -
                    min (r :: rs).length (cs - (chunkAt chunks ci).length) :=
                List.length_drop _ _
              have hsetlen : (setChunk chunks ci ((chunkAt chunks ci) ++
                  (r :: rs).take
                    (min (r :: rs).length (cs - (chunkAt chunks ci).length)))).length =
                  chunks.length := setChunk_length _ _ _
              obtain ⟨chunks2, ci2, heq, hci2, hall2⟩ :=
                ih (setChunk chunks ci ((chunkAt chunks ci) ++ (r :: rs).take
                      (min (r :: rs).length (cs - (chunkAt chunks ci).length))))
                  (if cs ≤ (chunkAt chunks ci).length +
                      min (r :: rs).length (cs - (chunkAt chunks ci).length)
                    then ci + 1 else ci)
                  ((r :: rs).drop (min (r :: rs).length (cs - (chunkAt chunks ci).length)))
                  (acc + min (r :: rs).length (cs - (chunkAt chunks ci).length))
                  (by rw [hsetlen]; split <;> omega)
                  (by
                    intro c hc
                    rcases mem_setChunk _ _ _ _ hc with hc | hc
                    · exact hall c hc
                    · subst hc
                      rw [List.length_append, htakelen]
                      omega)
                  (by rw [hsetlen, hdroplen]; split <;> omega)
              refine ⟨chunks2, ci2, ?_, hci2, hall2⟩
              rw [gridWriteLoop_fill fuel cs chunks ci r rs acc hlt hfull, heq]
              have hacc : acc + min (r :: rs).length (cs - (chunkAt chunks ci).length) +
                  ((r :: rs).drop
                    (min (r :: rs).length (cs - (chunkAt chunks ci).length))).length =
                  acc + (r :: rs).length := by
                rw [hdroplen]
                omega
              rw [hacc]

/-- The invariant maintained by the write path: positive configured chunk
size, in-range chunk index, and no buffered chunk longer than the chunk
size. -/
def GridInv (f : ModernGridFile) : Prop :=
  1 ≤ f.chunkSize ∧ f.chunkIndex ≤ f.chunks.length ∧
    ∀ c ∈ f.chunks, c.length ≤ f.chunkSize

/-- C7: on an open write-mode file with a positive configured chunk size
(invariant established at `Create` and preserved by every `Write`), `Write`
consumes and reports exactly its input's byte count, adds exactly that many
bytes to the tracked total length, and leaves every buffered chunk at most
the configured chunk size long. -/
theorem gridfile_write_spec (f : ModernGridFile) (data : List Nat)
    (hinv : GridInv f) (hopen : f.closed = false) :
    GridInv gridCreate ∧
    ∃ f2 : ModernGridFile,
      ModernGridFile.Write f data = Except.ok (f2, data.length) ∧
      f2.length = f.length + data.length ∧
      (∀ c ∈ f2.chunks, c.length ≤ f.chunkSize) ∧
      f2.chunkSize = f.chunkSize ∧ f2.closed = false ∧ GridInv f2 := by
  obtain ⟨hcs, hci, hall⟩ := hinv
  obtain ⟨chunks2, ci2, heq, hci2, hall2⟩ :=
    gridWriteLoop_spec f.chunkSize hcs (2 * data.length + f.chunks.length + 3)
      f.chunks f.chunkIndex data 0 hci hall (by omega)
  have heq2 : gridWriteLoop (2 * data.length + f.chunks.length + 3) f.chunkSize
      f.chunks f.chunkIndex data 0 = some (chunks2, ci2, data.length) := by
    rw [heq]
    simp
  refine ⟨⟨by norm_num [gridCreate], by simp [gridCreate], by simp [gridCreate]⟩,
    ⟨{ f with chunks := chunks2, chunkIndex := ci2, length := f.length + data.length },
      ?_, rfl, hall2, rfl, hopen, hcs, hci2, hall2⟩⟩
  simp only [ModernGridFile.Write, hopen, Bool.false_eq_true, if_false, heq2]

/-- Witness for the write specification: a 2-byte chunk size file receives
five bytes in two calls of sizes three and two. -/
theorem gridfile_write_spec_witness :
    GridInv gridCreate ∧
    ∃ f2 : ModernGridFile,
      ModernGridFile.Write (ModernGridFile.SetChunkSize gridCreate 2) [9, 8, 7] =
        Except.ok (f2, [9, 8, 7].length) ∧
      f2.length = (ModernGridFile.SetChunkSize gridCreate 2).length + [9, 8, 7].length ∧
      (∀ c ∈ f2.chunks, c.length ≤ (ModernGridFile.SetChunkSize gridCreate 2).chunkSize) ∧
      f2.chunkSize = (ModernGridFile.SetChunkSize gridCreate 2).chunkSize ∧
      f2.closed = false ∧ GridInv f2 :=
  gridfile_write_spec (ModernGridFile.SetChunkSize gridCreate 2) [9, 8, 7]
    ⟨by norm_num [ModernGridFile.SetChunkSize, gridCreate],
     by simp [ModernGridFile.SetChunkSize, gridCreate],
     by simp [ModernGridFile.SetChunkSize, gridCreate]⟩ rfl

end ModernMgo
